import Mathlib

set_option linter.constructorNameAsVariable false

/-!
# Verification of the masked finite-difference heat engine of `heat.c`

This file gives a shallow embedding, over exact rational arithmetic, of the
core routines of `src/heat.c` (grid constants, the stencil step `evolve_wave`,
`compute_gradient`, `compute_variance`, the field initialisers `init_gaussian`
and `init_julia_set`, the field-line seed selection loop of `draw_wave`, and
the tracing loop `draw_field_line`), and proves or refutes the frozen claims
about them.

Modelling conventions:
* C `double` values are embedded as `ℚ` (exact arithmetic).
* Grid-shaped arrays are total functions; where a claim is about array-bounds
  safety the access goes through the checked reader `readGrid`, which returns
  `none` exactly when the C access would be out of bounds.
* The helper file `sub_wave.c` is not part of the sources; its functions
  (`ij_to_xy`, `xy_in_billiard`, `xy_to_ij`, and the C library `exp`/`sqrt`)
  enter only as opaque data, so they are taken as explicit function
  parameters, and the theorems quantify over them.
-/

namespace Heat

/-! ## Grid and physics constants (heat.c lines 45-185) -/

def NX : ℕ := 1280
def NY : ℕ := 720
def XMIN : ℚ := -2.0
def XMAX : ℚ := 2.0
def YMIN : ℚ := -1.125
def YMAX : ℚ := 1.125
def DT : ℚ := 0.000004
def VISCOSITY : ℚ := 10.0
def T_OUT : ℚ := 2.0
def T_IN : ℚ := 0.0
def SPEED : ℚ := 0.0

def B_COND : ℕ := 0
def BC_DIRICHLET : ℕ := 0
def BC_PERIODIC : ℕ := 1
def BC_ABSORBING : ℕ := 2

/-- `FLOOR` flag of heat.c line 140 (0 in the source, i.e. `false`). -/
def FLOOR : Bool := false
def VMAX : ℚ := 10.0

def N_FIELD_LINES : ℕ := 200
def FIELD_LINE_FACTOR : ℕ := 100

/-- Spatial step `dx = (XMAX-XMIN)/NX` (heat.c line 683). -/
def dx : ℚ := (XMAX - XMIN) / (NX : ℚ)

/-- Integration step `intstep = DT/(dx*dx*VISCOSITY)` (heat.c line 684). -/
def intstep : ℚ := DT / (dx * dx * VISCOSITY)

/-- Border integration step `intstep1 = DT/(dx*VISCOSITY)` (heat.c line 685). -/
def intstep1 : ℚ := DT / (dx * VISCOSITY)

/-! ## Stencil neighbour indices (heat.c lines 476-491)

The source computes clamped indices when `B_COND` is `BC_DIRICHLET` or
`BC_ABSORBING` and wrapped indices when it is `BC_PERIODIC` (other values of
`bcond` leave the C variables uninitialised; they never occur, and the `else`
branch below simply reuses the periodic formula). C's `%` on `int` is
truncated division, i.e. `Int.tmod`; the source fixes up negative remainders
by adding the grid dimension afterwards. -/

def ip (bcond : ℕ) (i : ℤ) : ℤ :=
  if bcond = BC_DIRICHLET ∨ bcond = BC_ABSORBING then
    (if i + 1 = (NX : ℤ) then (NX : ℤ) - 1 else i + 1)
  else Int.tmod (i + 1) (NX : ℤ)

def im (bcond : ℕ) (i : ℤ) : ℤ :=
  if bcond = BC_DIRICHLET ∨ bcond = BC_ABSORBING then
    (if i - 1 = -1 then 0 else i - 1)
  else
    (if Int.tmod (i - 1) (NX : ℤ) < 0 then Int.tmod (i - 1) (NX : ℤ) + (NX : ℤ)
     else Int.tmod (i - 1) (NX : ℤ))

def jp (bcond : ℕ) (j : ℤ) : ℤ :=
  if bcond = BC_DIRICHLET ∨ bcond = BC_ABSORBING then
    (if j + 1 = (NY : ℤ) then (NY : ℤ) - 1 else j + 1)
  else Int.tmod (j + 1) (NY : ℤ)

def jm (bcond : ℕ) (j : ℤ) : ℤ :=
  if bcond = BC_DIRICHLET ∨ bcond = BC_ABSORBING then
    (if j - 1 = -1 then 0 else j - 1)
  else
    (if Int.tmod (j - 1) (NY : ℤ) < 0 then Int.tmod (j - 1) (NY : ℤ) + (NY : ℤ)
     else Int.tmod (j - 1) (NY : ℤ))

/-- `delta1`, the discretised Laplacian of heat.c line 493: the sum of the four
axis neighbours minus four times the centre value. -/
def lap (bcond : ℕ) (phi : ℤ → ℤ → ℚ) (i j : ℤ) : ℚ :=
  phi (ip bcond i) j + phi (im bcond i) j + phi i (jp bcond j) + phi i (jm bcond j)
    - 4 * phi i j

/-- Value written into `newphi[i][j]` for a status-1 cell (heat.c lines
493-529).  `delta2` models the variable `delta2` of `evolve_wave`, which the
source reads in the absorbing bulk branch (line 507) without ever assigning
it: its (uninitialised) value is passed in as a parameter.  The final `else`
returns `phi i j`; it is unreachable for in-grid indices (the C code would
leave `newphi[i][j]` uninitialised there). -/
def newphi_val (bcond : ℕ) (delta2 : ℚ) (phi : ℤ → ℤ → ℚ) (i j : ℤ) : ℚ :=
  if bcond ≠ BC_ABSORBING then
    phi i j + intstep * (lap bcond phi i j - SPEED * (phi (ip bcond i) j - phi i j))
  else if 0 < i ∧ i < (NX : ℤ) - 1 ∧ 0 < j ∧ j < (NY : ℤ) - 1 then
    phi i j - intstep * delta2
  else if i = (NX : ℤ) - 1 then phi i j - intstep1 * (phi i j - phi (i - 1) j)
  else if j = (NY : ℤ) - 1 then phi i j - intstep1 * (phi i j - phi i (j - 1))
  else if i = 0 then phi i j - intstep1 * (phi i j - phi 1 j)
  else if j = 0 then phi i j - intstep1 * (phi i j - phi i 1)
  else phi i j

/-- State of the old buffer `phi[i][j]` after the compute loop (heat.c lines
532-536): the `FLOOR` block writes the clamped value into `phi` (the old
buffer!), not into `newphi`, and only at status-1 cells.  With `FLOOR = 0`
(the source configuration) this is the identity. -/
def floor_write (bcond : ℕ) (floorflag : Bool) (delta2 : ℚ)
    (phi : ℤ → ℤ → ℚ) (xy_in : ℤ → ℤ → ℤ) (i j : ℤ) : ℚ :=
  if xy_in i j = 1 ∧ floorflag then
    (if newphi_val bcond delta2 phi i j > VMAX then VMAX
     else if newphi_val bcond delta2 phi i j < -VMAX then -VMAX
     else phi i j)
  else phi i j

/-- Final value of cell `(i,j)` after one call of `evolve_wave` (heat.c lines
462-553): the copy-back loop (lines 541-545) overwrites every status-1 cell of
the old buffer with `newphi[i][j]`, and leaves every other cell at the value
the compute loop left there (`floor_write`, which only status-1 cells can have
changed).  The compute loop reads the old buffer as a snapshot; with
`floorflag = true` the mid-loop clamp writes into the old buffer could leak
into neighbouring status-1 reads under the source's OpenMP schedule, so for
`floorflag = true` this pointwise form is exact whenever no out-of-range
status-1 cell is adjacent to another status-1 cell (as in the inputs used
below). -/
def evolve_wave (bcond : ℕ) (floorflag : Bool) (delta2 : ℚ)
    (phi : ℤ → ℤ → ℚ) (xy_in : ℤ → ℤ → ℤ) (i j : ℤ) : ℚ :=
  if xy_in i j = 1 then newphi_val bcond delta2 phi i j
  else floor_write bcond floorflag delta2 phi xy_in i j

/-! ## Checked grid access

C reads an `NX × NY` heap array; `readGrid` returns `none` exactly when the
access would be out of bounds. -/

def readGrid {α : Type} (g : ℤ → ℤ → α) (i j : ℤ) : Option α :=
  if 0 ≤ i ∧ i < (NX : ℤ) ∧ 0 ≤ j ∧ j < (NY : ℤ) then some (g i j) else none

/-! ## Gradient (heat.c lines 257-276) -/

/-- `compute_gradient` at cell `(i,j)`: centred differences with the source's
edge treatment, reproduced verbatim — in particular the third neighbour index
is `jplus = j+1; if (jplus == NX) jplus = NY-1;` (heat.c line 271), comparing
`j+1` against `NX`, not `NY`.  Every neighbour read goes through `readGrid`,
so the result is `none` exactly when the C code reads out of bounds. -/
def compute_gradient (phi : ℤ → ℤ → ℚ) (i j : ℤ) : Option (ℚ × ℚ) :=
  match readGrid phi (if i + 1 = (NX : ℤ) then (NX : ℤ) - 1 else i + 1) j,
        readGrid phi (if i - 1 = -1 then 0 else i - 1) j,
        readGrid phi i (if j + 1 = (NX : ℤ) then (NY : ℤ) - 1 else j + 1),
        readGrid phi i (if j - 1 = -1 then 0 else j - 1) with
  | some a, some b, some c, some d => some ((a - b) / dx, (c - d) / dx)
  | _, _, _, _ => none

/-! ## Variance (heat.c lines 558-576) -/

/-- `compute_variance`: the source loops `for (i=1; i<NX; i++) for (j=1;
j<NY; j++)`, so only cells with both indices at least 1 are visited; it
accumulates `phi[i][j]^2` over the visited cells with `xy_in[i][j]` nonzero,
counts them in `n`, replaces `n` by 1 when it is 0, and divides. -/
def compute_variance (phi : ℕ → ℕ → ℚ) (xy_in : ℕ → ℕ → ℤ) : ℚ :=
  (∑ p ∈ (Finset.Ico 1 NX ×ˢ Finset.Ico 1 NY).filter (fun p => xy_in p.1 p.2 ≠ 0),
      phi p.1 p.2 * phi p.1 p.2)
    / (if ((Finset.Ico 1 NX ×ˢ Finset.Ico 1 NY).filter
          (fun p => xy_in p.1 p.2 ≠ 0)).card = 0 then (1 : ℚ)
       else (((Finset.Ico 1 NX ×ˢ Finset.Ico 1 NY).filter
          (fun p => xy_in p.1 p.2 ≠ 0)).card : ℚ))

/-- The claim's variance, from the spec's words: the mean of the squared value
over all status-nonzero cells of the whole `NX × NY` grid, with the divisor
count defaulting to 1 when no cell qualifies. -/
def variance_claim (phi : ℕ → ℕ → ℚ) (xy_in : ℕ → ℕ → ℤ) : ℚ :=
  (∑ p ∈ (Finset.range NX ×ˢ Finset.range NY).filter (fun p => xy_in p.1 p.2 ≠ 0),
      phi p.1 p.2 * phi p.1 p.2)
    / ((max 1 ((Finset.range NX ×ˢ Finset.range NY).filter
          (fun p => xy_in p.1 p.2 ≠ 0)).card : ℕ) : ℚ)

/-- The amended claim's variance: the same mean, but taken over the cells the
source actually visits, namely those with both indices at least 1. -/
def variance_claim_sub (phi : ℕ → ℕ → ℚ) (xy_in : ℕ → ℕ → ℤ) : ℚ :=
  (∑ p ∈ (Finset.Ico 1 NX ×ˢ Finset.Ico 1 NY).filter (fun p => xy_in p.1 p.2 ≠ 0),
      phi p.1 p.2 * phi p.1 p.2)
    / ((max 1 ((Finset.Ico 1 NX ×ˢ Finset.Ico 1 NY).filter
          (fun p => xy_in p.1 p.2 ≠ 0)).card : ℕ) : ℚ)

/-- Status grid that is nonzero only at cell `(0,0)`: a cell the claim counts
but the `compute_variance` loops never visit. -/
def statusC4 : ℕ → ℕ → ℤ := fun i j => if i = 0 ∧ j = 0 then 1 else 0

/-! ## Field initialisation (heat.c lines 197-249)

Both initialisers call `ij_to_xy` and `xy_in_billiard` from `sub_wave.c`,
which is not among the sources, and `init_gaussian` calls the C library
`exp`; these enter as function parameters `ijxy`, `bill` and `rexp`.  Each
initialiser rewrites both the status grid (at every cell) and the field, and
is modelled as returning the pair (new field, new status grid). -/

/-- `init_gaussian` (heat.c lines 197-228).  For a cell of status 1 the field
becomes `mean + module/scalex` with `module = amplitude*exp(-dist2/scale2)`
floored at `1.0e-15`; for status `≥ 2` it becomes `T_IN*0.75^(status-2)`
(line 223); otherwise `T_OUT`. -/
def init_gaussian (x y mean amplitude scalex : ℚ) (rexp : ℚ → ℚ)
    (ijxy : ℕ → ℕ → ℚ × ℚ) (bill : ℚ → ℚ → ℤ)
    (phi : ℕ → ℕ → ℚ) (xy_in : ℕ → ℕ → ℤ) : (ℕ → ℕ → ℚ) × (ℕ → ℕ → ℤ) :=
  (fun i j =>
    if i < NX ∧ j < NY then
      (if bill (ijxy i j).1 (ijxy i j).2 = 1 then
        mean +
          (if amplitude * rexp
                (-(((ijxy i j).1 - x) * ((ijxy i j).1 - x)
                    + ((ijxy i j).2 - y) * ((ijxy i j).2 - y)) / (scalex * scalex))
              < 1e-15 then (1e-15 : ℚ)
           else amplitude * rexp
                (-(((ijxy i j).1 - x) * ((ijxy i j).1 - x)
                    + ((ijxy i j).2 - y) * ((ijxy i j).2 - y)) / (scalex * scalex)))
            / scalex
      else if 2 ≤ bill (ijxy i j).1 (ijxy i j).2 then
        T_IN * (0.75 : ℚ) ^ (bill (ijxy i j).1 (ijxy i j).2 - 2).toNat
      else T_OUT)
    else phi i j,
   fun i j => if i < NX ∧ j < NY then bill (ijxy i j).1 (ijxy i j).2 else xy_in i j)

/-- `init_julia_set` (heat.c lines 230-249): recomputes the status of every
cell, and overwrites the field only at cells whose new status is `≥ 2`, where
it writes the constant `T_IN` (line 247). -/
def init_julia_set (ijxy : ℕ → ℕ → ℚ × ℚ) (bill : ℚ → ℚ → ℤ)
    (phi : ℕ → ℕ → ℚ) (xy_in : ℕ → ℕ → ℤ) : (ℕ → ℕ → ℚ) × (ℕ → ℕ → ℤ) :=
  (fun i j =>
    if i < NX ∧ j < NY ∧ 2 ≤ bill (ijxy i j).1 (ijxy i j).2 then T_IN else phi i j,
   fun i j => if i < NX ∧ j < NY then bill (ijxy i j).1 (ijxy i j).2 else xy_in i j)

/-! ## Concrete inputs for the absorbing-policy and floor-clamp claims -/

/-- Field that is 1 at cell `(6,5)` and 0 elsewhere: its Laplacian at `(5,5)`
is 1. -/
def phiC7 : ℤ → ℤ → ℚ := fun a b => if a = 6 ∧ b = 5 then 1 else 0

/-- Status grid whose only interior (status-1) cell is `(5,5)`. -/
def xyC7 : ℤ → ℤ → ℤ := fun a b => if a = 5 ∧ b = 5 then 1 else 0

/-- Field that is 0 at cell `(5,5)` and 1000 elsewhere: the Dirichlet update
at `(5,5)` is `0 + intstep*4000 = 163.84`, far above `VMAX = 10`. -/
def phiC8 : ℤ → ℤ → ℚ := fun a b => if a = 5 ∧ b = 5 then 0 else 1000

/-- Status grid whose only interior (status-1) cell is `(5,5)` (so the
`FLOOR` clamp's mid-loop write to the old buffer cannot feed any other
status-1 cell's stencil, and the pointwise model is exact even under the
OpenMP schedule). -/
def xyC8 : ℤ → ℤ → ℤ := fun a b => if a = 5 ∧ b = 5 then 1 else 0

/-! ## Field-line seed selection (heat.c lines 423-450)

The seed arrays `linex`, `liney`, `distance` have exactly
`N_FIELD_LINES*FIELD_LINE_FACTOR` entries (valid indices 0 to 19999);
`integral` has one entry more.  The walk depends on the gradient field only
through the per-sample intensities
`intens i = module2(nablax,nablay)(sample i) * distance[i]`, which are taken
as the input function here (every gradient field induces one, with all
values nonnegative). -/

/-- Cumulative flux integral `integral[n]` (heat.c lines 426-432). -/
def integral_arr (intens : ℕ → ℚ) : ℕ → ℚ
  | 0 => intens 0
  | n + 1 => integral_arr intens n + intens (n + 1)

/-- The seed-advancing loop of heat.c line 444, `while ((integral[i] <=
j*deltaintens) && (i < N_FIELD_LINES*FIELD_LINE_FACTOR)) i++;`, with explicit
fuel: the guard `i < N_FIELD_LINES*FIELD_LINE_FACTOR` bounds the number of
iterations, so any fuel above that bound yields the loop's exit value. -/
def seek (intens : ℕ → ℚ) (thr : ℚ) : ℕ → ℕ → ℕ
  | 0, i => i
  | fuel + 1, i =>
      if integral_arr intens i ≤ thr ∧ i < N_FIELD_LINES * FIELD_LINE_FACTOR then
        seek intens thr fuel (i + 1)
      else i

/-- Seeds selected by the loop `for (j = 1; j < N_FIELD_LINES+1; j++)`
(heat.c lines 442-448), from current sample index `i` at line number `j` with
`count` lines still to draw; the index is carried over between lines, exactly
as in the source. -/
def seeds_from (intens : ℕ → ℚ) (delta : ℚ) : ℕ → ℕ → ℕ → List ℕ
  | _, _, 0 => []
  | i, j, count + 1 =>
      seek intens ((j : ℚ) * delta) (N_FIELD_LINES * FIELD_LINE_FACTOR + 1) i
        :: seeds_from intens delta
            (seek intens ((j : ℚ) * delta) (N_FIELD_LINES * FIELD_LINE_FACTOR + 1) i)
            (j + 1) count

/-- All sample indices at which `draw_wave` draws a field line: the mandatory
seed at index 0 (heat.c line 441) followed by the `N_FIELD_LINES` walked
seeds, with `deltaintens = integral[N_FIELD_LINES*FIELD_LINE_FACTOR-1] /
N_FIELD_LINES` (line 433). -/
def field_line_seeds (intens : ℕ → ℚ) : List ℕ :=
  0 :: seeds_from intens
        (integral_arr intens (N_FIELD_LINES * FIELD_LINE_FACTOR - 1)
          / (N_FIELD_LINES : ℚ))
        0 1 N_FIELD_LINES

/-! ## Field-line tracing (heat.c lines 278-343)

`xy_to_ij` and `sqrt` live outside the sources and are parameters. -/

/-- The clamp of heat.c lines 305-308: `if (ij[0] < 0) ij[0] = 0; if (ij[0] >
NX-1) ij[0] = NX-1;` and likewise for `ij[1]` with `NY`. -/
def clamp_ij (p : ℤ × ℤ) : ℤ × ℤ :=
  ((if (if p.1 < 0 then 0 else p.1) > (NX : ℤ) - 1 then (NX : ℤ) - 1
    else (if p.1 < 0 then 0 else p.1)),
   (if (if p.2 < 0 then 0 else p.2) > (NY : ℤ) - 1 then (NY : ℤ) - 1
    else (if p.2 < 0 then 0 else p.2)))

/-- One iteration of the `draw_field_line` loop body (heat.c lines 301-341):
clamp the derived grid index, read `nablax`, `nablay` and `xy_in` there (all
through `readGrid`, so an out-of-bounds read would surface as `none`), step
along the normalised gradient when its squared norm exceeds `1.0e-14` (with
the norm floored at `1.0e-9` before the square root), and report in the last
component whether the loop continues (`cont`): it stops on a small gradient
or on a zero status at the clamped cell. -/
def field_line_step (xytoij : ℚ → ℚ → ℤ × ℤ) (rsqrt : ℚ → ℚ)
    (nablax nablay : ℤ → ℤ → ℚ) (xy_in : ℤ → ℤ → ℤ) (delta : ℚ)
    (x1 y1 : ℚ) : Option (ℚ × ℚ × Bool) :=
  match readGrid nablax (clamp_ij (xytoij x1 y1)).1 (clamp_ij (xytoij x1 y1)).2,
        readGrid nablay (clamp_ij (xytoij x1 y1)).1 (clamp_ij (xytoij x1 y1)).2,
        readGrid xy_in (clamp_ij (xytoij x1 y1)).1 (clamp_ij (xytoij x1 y1)).2 with
  | some nabx, some naby, some st =>
      some (if nabx * nabx + naby * naby > 1e-14 then
              (x1 + delta * nabx
                  / rsqrt (if nabx * nabx + naby * naby < 1e-9 then (1e-9 : ℚ)
                           else nabx * nabx + naby * naby),
               y1 + delta * naby
                  / rsqrt (if nabx * nabx + naby * naby < 1e-9 then (1e-9 : ℚ)
                           else nabx * nabx + naby * naby),
               decide (st ≠ 0))
            else (x1, y1, false))
  | _, _, _ => none

/-- The trace loop `while ((cont)&&(i < nsteps))` of heat.c lines 301-341,
returning the polyline of emitted vertices, or `none` if any grid read along
the way were out of bounds. -/
def draw_field_line (xytoij : ℚ → ℚ → ℤ × ℤ) (rsqrt : ℚ → ℚ)
    (nablax nablay : ℤ → ℤ → ℚ) (xy_in : ℤ → ℤ → ℤ) (delta : ℚ) :
    ℕ → ℚ × ℚ → Option (List (ℚ × ℚ))
  | 0, _ => some []
  | nsteps + 1, st =>
      match field_line_step xytoij rsqrt nablax nablay xy_in delta st.1 st.2 with
      | none => none
      | some (x2, y2, cont) =>
          if cont then
            match draw_field_line xytoij rsqrt nablax nablay xy_in delta nsteps
                (x2, y2) with
            | none => none
            | some l => some ((x2, y2) :: l)
          else some [(x2, y2)]

end Heat

namespace Heat

/-! ## Helper lemmas about the constants -/

theorem NX_z : (NX : ℤ) = 1280 := rfl

theorem NY_z : (NY : ℤ) = 720 := rfl

theorem intstep_eq : intstep = 128 / 3125 := by
  norm_num [intstep, DT, dx, XMAX, XMIN, VISCOSITY, NX]

theorem intstep1_eq : intstep1 = 2 / 15625 := by
  norm_num [intstep1, DT, dx, XMAX, XMIN, VISCOSITY, NX]

/-- Dirichlet-clamped neighbour indices stay inside the grid. -/
theorem ip_mem (i : ℤ) (h0 : 0 ≤ i) (h1 : i < (NX : ℤ)) :
    0 ≤ ip BC_DIRICHLET i ∧ ip BC_DIRICHLET i < (NX : ℤ) := by
  unfold ip
  rw [if_pos (Or.inl rfl)]
  rw [NX_z] at *
  split <;> omega

theorem im_mem (i : ℤ) (h0 : 0 ≤ i) (h1 : i < (NX : ℤ)) :
    0 ≤ im BC_DIRICHLET i ∧ im BC_DIRICHLET i < (NX : ℤ) := by
  unfold im
  rw [if_pos (Or.inl rfl)]
  rw [NX_z] at *
  split <;> omega

theorem jp_mem (j : ℤ) (h0 : 0 ≤ j) (h1 : j < (NY : ℤ)) :
    0 ≤ jp BC_DIRICHLET j ∧ jp BC_DIRICHLET j < (NY : ℤ) := by
  unfold jp
  rw [if_pos (Or.inl rfl)]
  rw [NY_z] at *
  split <;> omega

theorem jm_mem (j : ℤ) (h0 : 0 ≤ j) (h1 : j < (NY : ℤ)) :
    0 ≤ jm BC_DIRICHLET j ∧ jm BC_DIRICHLET j < (NY : ℤ) := by
  unfold jm
  rw [if_pos (Or.inl rfl)]
  rw [NY_z] at *
  split <;> omega

/-- C1: a field that is uniform over the whole grid (interior cells and the
status-0 / status-`≥2` cells that feed the stencil as Dirichlet sources) is a
fixed point of one `evolve_wave` step under the Dirichlet policy: every grid
cell keeps exactly its previous value. -/
theorem C1_uniform_field_fixed_point (phi : ℤ → ℤ → ℚ) (xy_in : ℤ → ℤ → ℤ) (c : ℚ)
    (huni : ∀ a b : ℤ, 0 ≤ a → a < (NX : ℤ) → 0 ≤ b → b < (NY : ℤ) → phi a b = c)
    (i j : ℤ) (hi0 : 0 ≤ i) (hi1 : i < (NX : ℤ)) (hj0 : 0 ≤ j) (hj1 : j < (NY : ℤ)) :
    evolve_wave BC_DIRICHLET FLOOR 0 phi xy_in i j = phi i j := by
  have hip := ip_mem i hi0 hi1
  have him := im_mem i hi0 hi1
  have hjp := jp_mem j hj0 hj1
  have hjm := jm_mem j hj0 hj1
  have h1 : phi (ip BC_DIRICHLET i) j = c := huni _ _ hip.1 hip.2 hj0 hj1
  have h2 : phi (im BC_DIRICHLET i) j = c := huni _ _ him.1 him.2 hj0 hj1
  have h3 : phi i (jp BC_DIRICHLET j) = c := huni _ _ hi0 hi1 hjp.1 hjp.2
  have h4 : phi i (jm BC_DIRICHLET j) = c := huni _ _ hi0 hi1 hjm.1 hjm.2
  have h5 : phi i j = c := huni _ _ hi0 hi1 hj0 hj1
  unfold evolve_wave
  by_cases hx : xy_in i j = 1
  · rw [if_pos hx]
    unfold newphi_val
    rw [if_pos (by simp [BC_DIRICHLET, BC_ABSORBING])]
    unfold lap
    rw [h1, h2, h3, h4, h5]
    have hs : SPEED = 0 := by norm_num [SPEED]
    rw [hs]
    ring
  · rw [if_neg hx]
    unfold floor_write
    rw [if_neg (by simp [hx])]

/-- C1 witness: the constant field 5 on a fully interior grid is unchanged at
cell (3,4). -/
theorem C1_uniform_field_fixed_point_witness :
    (∀ a b : ℤ, 0 ≤ a → a < (NX : ℤ) → 0 ≤ b → b < (NY : ℤ) →
        (fun _ _ : ℤ => (5 : ℚ)) a b = 5)
    ∧ evolve_wave BC_DIRICHLET FLOOR 0 (fun _ _ => (5 : ℚ)) (fun _ _ => 1) 3 4
        = (fun _ _ : ℤ => (5 : ℚ)) 3 4 :=
  ⟨fun _ _ _ _ _ _ => rfl,
   C1_uniform_field_fixed_point (fun _ _ => (5 : ℚ)) (fun _ _ => 1) 5
     (fun _ _ _ _ _ _ => rfl) 3 4 (by norm_num) (by norm_num [NX_z])
     (by norm_num) (by norm_num [NY_z])⟩

/-- C2: for every input field and status grid, the stencil step as configured
in the source (`B_COND`, `FLOOR`) updates only status-1 cells: every cell
whose status is 0 or `≥ 2` holds exactly the same value after the step as
before it. -/
theorem C2_untouched_non_interior (phi : ℤ → ℤ → ℚ) (xy_in : ℤ → ℤ → ℤ) :
    ∀ i j : ℤ, xy_in i j = 0 ∨ 2 ≤ xy_in i j →
      evolve_wave B_COND FLOOR 0 phi xy_in i j = phi i j := by
  intro i j h
  have hx : ¬ xy_in i j = 1 := by rcases h with h | h <;> omega
  unfold evolve_wave
  rw [if_neg hx]
  unfold floor_write
  rw [if_neg (by simp [hx])]

/-- C2 witness: a status-0 cell keeps its value 7 across a step. -/
theorem C2_untouched_non_interior_witness :
    ((fun _ _ : ℤ => (0 : ℤ)) 3 4 = 0 ∨ 2 ≤ (fun _ _ : ℤ => (0 : ℤ)) 3 4)
    ∧ evolve_wave B_COND FLOOR 0 (fun _ _ => (7 : ℚ)) (fun _ _ => 0) 3 4
        = (fun _ _ : ℤ => (7 : ℚ)) 3 4 :=
  ⟨Or.inl rfl,
   C2_untouched_non_interior (fun _ _ => (7 : ℚ)) (fun _ _ => 0) 3 4 (Or.inl rfl)⟩

/-- C3: on the constant field 1, `compute_gradient` reads out of bounds at
every top-row cell — at `j = NY-1` the source leaves `jplus = NY` unclamped
because line 271 compares `j+1` against `NX` (1280) instead of `NY` (720) —
while away from the top row it does return the zero vector with in-bounds
accesses. -/
theorem C3_gradient_top_row_out_of_bounds :
    compute_gradient (fun _ _ => 1) 0 ((NY : ℤ) - 1) = none
    ∧ compute_gradient (fun _ _ => 1) 3 4 = some (0, 0)
    ∧ compute_gradient (fun _ _ => 1) 0 0 = some (0, 0) := by
  refine ⟨by decide, ?_, ?_⟩ <;>
    · rw [compute_gradient.eq_def]
      norm_num [readGrid, NX_z, NY_z]

/-- C4 counterexample: with the field constantly 1 and a status grid whose
only nonzero-status cell is `(0,0)`, the claim's mean over all status-nonzero
cells of the grid is 1, but `compute_variance` returns 0, because its loops
start at index 1 and never visit row 0 or column 0. -/
theorem C4_counterexample :
    compute_variance (fun _ _ => 1) statusC4 = 0
    ∧ variance_claim (fun _ _ => 1) statusC4 = 1 := by
  constructor
  · have h : (Finset.Ico 1 NX ×ˢ Finset.Ico 1 NY).filter
        (fun p => statusC4 p.1 p.2 ≠ 0) = ∅ := by
      refine Finset.filter_false_of_mem ?_
      intro q hq
      simp only [Finset.mem_product, Finset.mem_Ico] at hq
      have hne : ¬ (q.1 = 0 ∧ q.2 = 0) := fun hc => by omega
      simp [statusC4, hne]
    unfold compute_variance
    rw [h]
    simp
  · have h : (Finset.range NX ×ˢ Finset.range NY).filter
        (fun p => statusC4 p.1 p.2 ≠ 0) = {((0 : ℕ), (0 : ℕ))} := by
      refine Finset.ext (fun p => ?_)
      obtain ⟨a, b⟩ := p
      simp only [Finset.mem_filter, Finset.mem_product, Finset.mem_range,
        Finset.mem_singleton, statusC4, Prod.mk.injEq]
      constructor
      · rintro ⟨⟨_, _⟩, hne⟩
        by_cases hc : a = 0 ∧ b = 0
        · exact hc
        · rw [if_neg hc] at hne
          exact absurd rfl hne
      · rintro ⟨rfl, rfl⟩
        refine ⟨⟨?_, ?_⟩, ?_⟩ <;> norm_num [NX, NY]
    unfold variance_claim
    rw [h]
    simp

/-- C4 amended: `compute_variance` equals the mean of the squared value over
the status-nonzero cells with both indices at least 1 (row 0 and column 0 are
never visited), with the divisor count defaulting to 1 when that set is
empty. -/
theorem C4_variance_over_subgrid (phi : ℕ → ℕ → ℚ) (xy_in : ℕ → ℕ → ℤ) :
    compute_variance phi xy_in = variance_claim_sub phi xy_in := by
  unfold compute_variance variance_claim_sub
  set n := ((Finset.Ico 1 NX ×ˢ Finset.Ico 1 NY).filter
    (fun p => xy_in p.1 p.2 ≠ 0)).card with hn
  rcases Nat.eq_zero_or_pos n with h | h
  · rw [h]
    norm_num
  · rw [if_neg (by omega), Nat.max_eq_right h]

/-- C5: whenever `init_gaussian` or `init_julia_set` assigns a temperature to
a graded boundary cell, i.e. one whose computed status `s` is `≥ 2`, the
assigned value equals `T_IN * 0.75^(s-2)`.  `init_gaussian` computes exactly
this formula (line 223); `init_julia_set` writes the constant `T_IN`
(line 247), which coincides with the formula because the source fixes
`T_IN = 0.0`. -/
theorem C5_graded_shell_temperature
    (x y mean amplitude scalex : ℚ) (rexp : ℚ → ℚ)
    (ijxy : ℕ → ℕ → ℚ × ℚ) (bill : ℚ → ℚ → ℤ)
    (phi : ℕ → ℕ → ℚ) (xy_in : ℕ → ℕ → ℤ) (i j : ℕ)
    (hi : i < NX) (hj : j < NY)
    (hs : 2 ≤ bill (ijxy i j).1 (ijxy i j).2) :
    (init_gaussian x y mean amplitude scalex rexp ijxy bill phi xy_in).1 i j
      = T_IN * (0.75 : ℚ) ^ (bill (ijxy i j).1 (ijxy i j).2 - 2).toNat
    ∧ (init_julia_set ijxy bill phi xy_in).1 i j
      = T_IN * (0.75 : ℚ) ^ (bill (ijxy i j).1 (ijxy i j).2 - 2).toNat := by
  constructor
  · simp only [init_gaussian]
    rw [if_pos ⟨hi, hj⟩, if_neg (by omega), if_pos hs]
  · simp only [init_julia_set]
    rw [if_pos ⟨hi, hj, hs⟩]
    norm_num [T_IN]

/-- C5 witness: with a classifier returning status 3 everywhere, both
initialisers assign `T_IN * 0.75^1` (= 0) at cell (0,0). -/
theorem C5_graded_shell_temperature_witness :
    0 < NX ∧ 0 < NY ∧ 2 ≤ (3 : ℤ)
    ∧ (init_gaussian 0 0 0 0 1 (fun _ => 0) (fun _ _ => (0, 0)) (fun _ _ => 3)
        (fun _ _ => 9) (fun _ _ => 0)).1 0 0 = T_IN * (0.75 : ℚ) ^ ((3 : ℤ) - 2).toNat
    ∧ (init_julia_set (fun _ _ => (0, 0)) (fun _ _ => 3)
        (fun _ _ => 9) (fun _ _ => 0)).1 0 0 = T_IN * (0.75 : ℚ) ^ ((3 : ℤ) - 2).toNat := by
  refine ⟨by norm_num [NX], by norm_num [NY], by norm_num, ?_, ?_⟩
  · exact (C5_graded_shell_temperature 0 0 0 0 1 (fun _ => 0) (fun _ _ => (0, 0))
      (fun _ _ => 3) (fun _ _ => 9) (fun _ _ => 0) 0 0
      (by norm_num [NX]) (by norm_num [NY]) (by norm_num)).1
  · exact (C5_graded_shell_temperature 0 0 0 0 1 (fun _ => 0) (fun _ _ => (0, 0))
      (fun _ _ => 3) (fun _ _ => 9) (fun _ _ => 0) 0 0
      (by norm_num [NX]) (by norm_num [NY]) (by norm_num)).2

/-- C7: under the absorbing policy the bulk update is not the claimed
explicit-Euler Laplacian step: heat.c line 507 computes `x - intstep*delta2`
where `delta2` is never assigned (the Laplacian `delta1` of line 493 is
unused there).  At the interior status-1 cell (5,5) with Laplacian 1, the
claimed update gives `0 + intstep = 128/3125` while the code gives
`0 - intstep*delta2` (0 when the junk value is 0), and the result genuinely
depends on the uninitialised `delta2`; the border branch, by contrast, does
relax toward the inward neighbour as claimed (last conjunct, right border). -/
theorem C7_absorbing_bulk_uses_uninitialised_value :
    evolve_wave BC_ABSORBING FLOOR 0 phiC7 xyC7 5 5 = 0
    ∧ phiC7 5 5 + intstep * lap BC_ABSORBING phiC7 5 5 = 128 / 3125
    ∧ (0 : ℚ) ≠ 128 / 3125
    ∧ evolve_wave BC_ABSORBING FLOOR 1 phiC7 xyC7 5 5
        ≠ evolve_wave BC_ABSORBING FLOOR 0 phiC7 xyC7 5 5
    ∧ ∀ d : ℚ, newphi_val BC_ABSORBING d phiC7 ((NX : ℤ) - 1) 5
        = phiC7 ((NX : ℤ) - 1) 5
            - intstep1 * (phiC7 ((NX : ℤ) - 1) 5 - phiC7 ((NX : ℤ) - 2) 5) := by
  refine ⟨?_, ?_, by norm_num, ?_, ?_⟩
  · norm_num [evolve_wave, newphi_val, xyC7, phiC7, BC_ABSORBING, NX_z, NY_z]
  · norm_num [lap, ip, im, jp, jm, phiC7, BC_ABSORBING, BC_DIRICHLET, NX_z, NY_z,
      intstep_eq]
  · norm_num [evolve_wave, newphi_val, xyC7, phiC7, BC_ABSORBING, NX_z, NY_z,
      intstep_eq]
  · intro d
    rw [newphi_val]
    rw [if_neg (by norm_num [BC_ABSORBING]), if_neg (by rw [NX_z]; norm_num),
      if_pos rfl, show (NX : ℤ) - 1 - 1 = (NX : ℤ) - 2 from by ring]

/-- C8: with the floor flag raised, the updated value of the status-1 cell
(5,5) is `163.84 = 4096/25`, far outside `[-VMAX, VMAX]`: the clamp of heat.c
lines 532-536 writes `VMAX` into the old buffer `phi` (second conjunct), but
the copy-back loop then overwrites the cell with the unclamped `newphi`, so
the claimed bound does not hold after the step. -/
theorem C8_floor_clamp_is_bypassed :
    evolve_wave B_COND true 0 phiC8 xyC8 5 5 = 4096 / 25
    ∧ floor_write B_COND true 0 phiC8 xyC8 5 5 = VMAX
    ∧ ¬ evolve_wave B_COND true 0 phiC8 xyC8 5 5 ≤ VMAX := by
  have hval : evolve_wave B_COND true 0 phiC8 xyC8 5 5 = 4096 / 25 := by
    norm_num [evolve_wave, newphi_val, lap, ip, im, jp, jm, xyC8, phiC8,
      B_COND, BC_ABSORBING, BC_DIRICHLET, BC_PERIODIC, SPEED, NX_z, NY_z, intstep_eq]
  refine ⟨hval, ?_, ?_⟩
  · have hnew : newphi_val B_COND 0 phiC8 5 5 = 4096 / 25 := by
      norm_num [newphi_val, lap, ip, im, jp, jm, phiC8,
        B_COND, BC_ABSORBING, BC_DIRICHLET, BC_PERIODIC, SPEED, NX_z, NY_z, intstep_eq]
    rw [floor_write, if_pos ⟨by norm_num [xyC8], rfl⟩, hnew,
      if_pos (by norm_num [VMAX])]
  · rw [hval]
    norm_num [VMAX]

/-- C10: `init_julia_set` recomputes every cell's status from the classifier,
and a cell whose new status is 0 or 1 keeps exactly the field value it held
before the call. -/
theorem C10_julia_reclassification_preserves_interior
    (ijxy : ℕ → ℕ → ℚ × ℚ) (bill : ℚ → ℚ → ℤ)
    (phi : ℕ → ℕ → ℚ) (xy_in : ℕ → ℕ → ℤ) (i j : ℕ)
    (hi : i < NX) (hj : j < NY) :
    (init_julia_set ijxy bill phi xy_in).2 i j = bill (ijxy i j).1 (ijxy i j).2
    ∧ ((init_julia_set ijxy bill phi xy_in).2 i j = 0
        ∨ (init_julia_set ijxy bill phi xy_in).2 i j = 1
       → (init_julia_set ijxy bill phi xy_in).1 i j = phi i j) := by
  have hst : (init_julia_set ijxy bill phi xy_in).2 i j
      = bill (ijxy i j).1 (ijxy i j).2 := by
    simp only [init_julia_set]
    rw [if_pos ⟨hi, hj⟩]
  refine ⟨hst, fun h => ?_⟩
  have hlt : ¬ 2 ≤ bill (ijxy i j).1 (ijxy i j).2 := by
    rw [hst] at h
    rcases h with h | h <;> omega
  simp only [init_julia_set]
  rw [if_neg (fun hc => hlt hc.2.2)]

/-- C10 witness: with a classifier returning status 1, cell (0,0) is
reclassified to 1 and keeps its previous value 9. -/
theorem C10_julia_reclassification_preserves_interior_witness :
    0 < NX ∧ 0 < NY
    ∧ (init_julia_set (fun _ _ => (0, 0)) (fun _ _ => 1)
        (fun _ _ => (9 : ℚ)) (fun _ _ => 0)).2 0 0 = 1
    ∧ (init_julia_set (fun _ _ => (0, 0)) (fun _ _ => 1)
        (fun _ _ => (9 : ℚ)) (fun _ _ => 0)).1 0 0 = 9 := by
  have h := C10_julia_reclassification_preserves_interior
    (fun _ _ => (0, 0)) (fun _ _ => 1) (fun _ _ => (9 : ℚ)) (fun _ _ => 0) 0 0
    (by norm_num [NX]) (by norm_num [NY])
  exact ⟨by norm_num [NX], by norm_num [NY], h.1, h.2 (Or.inr h.1)⟩

/-! ## Lemmas about the seed walk -/

theorem integral_arr_zero (n : ℕ) : integral_arr (fun _ => 0) n = 0 := by
  induction n with
  | zero => rfl
  | succ n ih =>
      rw [integral_arr, ih]
      norm_num

/-- On the all-zero intensity sequence every threshold comparison
`integral[i] <= 0` holds, so the walk advances until the guard
`i < N_FIELD_LINES*FIELD_LINE_FACTOR` stops it. -/
theorem seek_zero_intens (fuel : ℕ) :
    ∀ i : ℕ, i ≤ N_FIELD_LINES * FIELD_LINE_FACTOR →
      seek (fun _ => 0) 0 fuel i
        = min (i + fuel) (N_FIELD_LINES * FIELD_LINE_FACTOR) := by
  induction fuel with
  | zero =>
      intro i h
      rw [seek]
      omega
  | succ fuel ih =>
      intro i h
      rw [seek]
      by_cases hi : i < N_FIELD_LINES * FIELD_LINE_FACTOR
      · rw [if_pos ⟨by simp [integral_arr_zero], hi⟩, ih (i + 1) (by omega)]
        omega
      · rw [if_neg (fun hc => hi hc.2)]
        omega

theorem seeds_from_length (intens : ℕ → ℚ) (delta : ℚ) :
    ∀ (count i j : ℕ), (seeds_from intens delta i j count).length = count := by
  intro count
  induction count with
  | zero => intro i j; rfl
  | succ c ih =>
      intro i j
      rw [seeds_from]
      simp [ih]

/-- C6: the seeding pass of `draw_wave` always draws exactly
`N_FIELD_LINES + 1` lines (first conjunct, for every intensity profile), but
the selected sample indices do not all stay inside the seed arrays: on the
all-zero gradient field the walk of line 444 runs to index
`N_FIELD_LINES*FIELD_LINE_FACTOR` = 20000 (second conjunct), one past the
last valid index of the 20000-element arrays `linex`/`liney`, and
`draw_field_line(linex[i], ...)` is then called with that out-of-bounds
index. -/
theorem C6_seed_selection_overruns_arrays :
    (∀ intens : ℕ → ℚ, (field_line_seeds intens).length = N_FIELD_LINES + 1)
    ∧ N_FIELD_LINES * FIELD_LINE_FACTOR ∈ field_line_seeds (fun _ => 0) := by
  constructor
  · intro intens
    rw [field_line_seeds]
    simp [seeds_from_length]
  · rw [field_line_seeds]
    have hdelta : integral_arr (fun _ => 0)
        (N_FIELD_LINES * FIELD_LINE_FACTOR - 1) / (N_FIELD_LINES : ℚ) = 0 := by
      rw [integral_arr_zero]
      norm_num
    rw [hdelta]
    have hsucc : seeds_from (fun _ => 0) 0 0 1 N_FIELD_LINES
        = seeds_from (fun _ => 0) 0 0 1 (199 + 1) := rfl
    rw [hsucc, seeds_from]
    have hthr : ((1 : ℕ) : ℚ) * 0 = 0 := by norm_num
    rw [hthr, seek_zero_intens _ 0 (by omega)]
    have hmin : min (0 + (N_FIELD_LINES * FIELD_LINE_FACTOR + 1))
        (N_FIELD_LINES * FIELD_LINE_FACTOR) = N_FIELD_LINES * FIELD_LINE_FACTOR := by
      omega
    rw [hmin]
    simp

/-! ## The field-line trace never reads out of bounds -/

/-- C9: in `draw_field_line`, for every starting point, gradient field,
status grid, index map and square-root function, the grid index derived from
the current position is clamped into `[0,NX-1] × [0,NY-1]` (first conjunct),
and consequently the whole trace never performs an out-of-bounds read of
`nablax`, `nablay` or `xy_in`: the checked-access trace always returns a
value, never the out-of-bounds sentinel `none` (second conjunct). -/
theorem C9_trace_reads_stay_in_bounds
    (xytoij : ℚ → ℚ → ℤ × ℤ) (rsqrt : ℚ → ℚ)
    (nablax nablay : ℤ → ℤ → ℚ) (xy_in : ℤ → ℤ → ℤ) (delta : ℚ) :
    (∀ p : ℤ × ℤ, 0 ≤ (clamp_ij p).1 ∧ (clamp_ij p).1 < (NX : ℤ)
        ∧ 0 ≤ (clamp_ij p).2 ∧ (clamp_ij p).2 < (NY : ℤ))
    ∧ ∀ (nsteps : ℕ) (st : ℚ × ℚ),
        (draw_field_line xytoij rsqrt nablax nablay xy_in delta nsteps st).isSome
          = true := by
  have hcl : ∀ p : ℤ × ℤ, 0 ≤ (clamp_ij p).1 ∧ (clamp_ij p).1 < (NX : ℤ)
      ∧ 0 ≤ (clamp_ij p).2 ∧ (clamp_ij p).2 < (NY : ℤ) := by
    intro p
    simp only [clamp_ij, NX_z, NY_z]
    refine ⟨?_, ?_, ?_, ?_⟩ <;> (repeat' split) <;> omega
  have hstep : ∀ x1 y1, ∃ v,
      field_line_step xytoij rsqrt nablax nablay xy_in delta x1 y1 = some v := by
    intro x1 y1
    have hc := hcl (xytoij x1 y1)
    rw [field_line_step]
    simp only [readGrid]
    rw [if_pos ⟨hc.1, hc.2.1, hc.2.2.1, hc.2.2.2⟩,
      if_pos ⟨hc.1, hc.2.1, hc.2.2.1, hc.2.2.2⟩,
      if_pos ⟨hc.1, hc.2.1, hc.2.2.1, hc.2.2.2⟩]
    exact ⟨_, rfl⟩
  refine ⟨hcl, ?_⟩
  intro nsteps
  induction nsteps with
  | zero => intro st; rfl
  | succ n ih =>
      intro st
      obtain ⟨⟨x2, y2, cont⟩, hv⟩ := hstep st.1 st.2
      rw [draw_field_line, hv]
      cases cont
      · simp
      · have hrec := ih (x2, y2)
        cases hr : draw_field_line xytoij rsqrt nablax nablay xy_in delta n
            (x2, y2) with
        | none => rw [hr] at hrec; simp at hrec
        | some l => simp [hr]

end Heat
